import Mathlib

/-!
Shallow embedding of `app/src/main/cpp/language_id_l2c_jni.cpp`
(the native language identifier of AuraFrameFxDev/Genesis).

The native code works on the bytes of a `std::string` obtained from the JNI
string (Modified UTF-8).  We model such a string as `List Nat`, each entry one
byte value (0..255 in practice; the definitions are total on all of `Nat`).
A nullable JNI string is `Option (List Nat)`: `none` stands for a null (or
unprocessable, i.e. `GetStringUTFChars` returning null) `jstring`.

Notes on faithfulness:
* `std::transform(..., ::tolower)` lower-cases the ASCII letters `A`..`Z`
  byte-wise and leaves every other byte value unchanged (C locale); this is
  `toLowerByte` below.
* `textStr.find(" el ") != std::string::npos` is substring containment of the
  byte pattern `" el "`; `containsB` below computes exactly that.
* The accent test `c < 0 || c > 127` on a byte is "byte value above 127",
  i.e. `127 < b` on our `Nat` bytes.
* The fallback guard `accentCount > textStr.length() * 0.1` compares the
  integer `accentCount` with the `double` `length * 0.1`.  For every length
  below 2^53 / 10 the comparison agrees with the exact rational comparison
  `10 * accentCount > length` (the rounding error of `0.1` is below half an
  ulp at every integer multiple, so the product never crosses an integer),
  which is how we state it.
-/

namespace LangId

/-- `::tolower` applied to one byte: ASCII `A`..`Z` (65..90) gains 32,
every other byte value is unchanged. -/
def toLowerByte (b : Nat) : Nat :=
  if 65 ≤ b ∧ b ≤ 90 then b + 32 else b

/-- The `std::transform(textStr.begin(), textStr.end(), textStr.begin(), ::tolower)`
step: byte-wise lower-casing of the whole string. -/
def normalize (t : List Nat) : List Nat :=
  t.map toLowerByte

/-- Bytes of an ASCII string literal, for writing the keyword tables the way
the source writes them. -/
def strBytes (s : String) : List Nat :=
  s.data.map Char.toNat

/-- `p` is an initial segment of `l` (helper for substring search). -/
def startsWithB : List Nat → List Nat → Bool
  | [], _ => true
  | _ :: _, [] => false
  | a :: p, b :: l => a == b && startsWithB p l

/-- `std::string::find(p) != npos` on byte strings: `p` occurs as a
contiguous substring of `l`. -/
def containsB (p : List Nat) : List Nat → Bool
  | [] => p.isEmpty
  | b :: l => startsWithB p (b :: l) || containsB p l

/-- The pattern actually searched for a keyword `kw`: the source writes the
keywords with a single space on both sides (`" el "`, `" la "`, ...). -/
def kwPattern (kw : List Nat) : List Nat :=
  32 :: kw ++ [32]

/-- One keyword test of the cascade: `textStr.find(" kw ") != std::string::npos`. -/
def kwHit (nt kw : List Nat) : Bool :=
  containsB (kwPattern kw) nt

/-- One language's `if` condition: the disjunction of its ten keyword tests. -/
def tableHit (nt : List Nat) (kws : List (List Nat)) : Bool :=
  kws.any (kwHit nt)

/-- Spanish keywords, in source order (lines 81-91). -/
def esKws : List (List Nat) :=
  [strBytes "el", strBytes "la", strBytes "de", strBytes "que", strBytes "es",
   strBytes "con", strBytes "y", strBytes "en", strBytes "un", strBytes "una"]

/-- French keywords, in source order (lines 93-102). -/
def frKws : List (List Nat) :=
  [strBytes "le", strBytes "la", strBytes "et", strBytes "ce", strBytes "qui",
   strBytes "avec", strBytes "est", strBytes "dans", strBytes "pour", strBytes "un"]

/-- German keywords, in source order (lines 104-113). -/
def deKws : List (List Nat) :=
  [strBytes "und", strBytes "der", strBytes "die", strBytes "das", strBytes "mit",
   strBytes "ist", strBytes "ein", strBytes "eine", strBytes "auf", strBytes "von"]

/-- Italian keywords, in source order (lines 115-124). -/
def itKws : List (List Nat) :=
  [strBytes "il", strBytes "che", strBytes "con", strBytes "per", strBytes "sono",
   strBytes "e", strBytes "in", strBytes "un", strBytes "una", strBytes "non"]

/-- Portuguese keywords, in source order (lines 126-135). -/
def ptKws : List (List Nat) :=
  [strBytes "o", strBytes "a", strBytes "que", strBytes "para", strBytes "com",
   strBytes "e", strBytes "em", strBytes "um", strBytes "uma", strBytes "de"]

/-- The five keyword tables in the evaluation order of the `if`/`else if`
chain: Spanish, French, German, Italian, Portuguese. -/
def langTable : Fin 5 → List (List Nat)
  | 0 => esKws
  | 1 => frKws
  | 2 => deKws
  | 3 => itKws
  | 4 => ptKws

/-- The code assigned by the branch of the same index. -/
def langCode : Fin 5 → String
  | 0 => "es"
  | 1 => "fr"
  | 2 => "de"
  | 3 => "it"
  | 4 => "pt"

/-- The `if`/`else if` keyword cascade of lines 81-137: the working `result`
after the chain, starting from the default `"en"`. -/
def keywordResult (nt : List Nat) : String :=
  if tableHit nt esKws then "es"
  else if tableHit nt frKws then "fr"
  else if tableHit nt deKws then "de"
  else if tableHit nt itKws then "it"
  else if tableHit nt ptKws then "pt"
  else "en"

/-- `accentCount` of lines 140-145: the number of non-ASCII bytes. -/
def accentCount (nt : List Nat) : Nat :=
  (nt.filter (fun b => decide (127 < b))).length

/-- The detection on the already lower-cased text: the cascade result,
overridden to `"mul"` by lines 149-151 when the non-ASCII count exceeds 10%
of the length and no keyword matched. -/
def detectNormalized (nt : List Nat) : String :=
  let result := keywordResult nt
  if 10 * accentCount nt > nt.length ∧ result = "en" then "mul" else result

/-- Body of `nativeDetectLanguage` on a non-null text: lower-case, then the
cascade and the fallback. -/
def detectBytes (t : List Nat) : String :=
  detectNormalized (normalize t)

/-- `Java_com_example_app_language_LanguageIdentifier_nativeDetectLanguage`:
null (or unprocessable) text yields `"und"` (lines 61-68); the handle is
never read by the body. -/
def nativeDetectLanguage (handle : Int) (text : Option (List Nat)) : String :=
  match text with
  | none => "und"
  | some t => detectBytes t

/-- The native library's mutable state.  The source file declares no global
and no per-handle mutable variable (logging aside, which the spec excludes as
advisory), so the state type is trivial. -/
def ClassifierState : Type := Unit

/-- `Java_com_example_app_language_LanguageIdentifier_nativeRelease`
(lines 164-181): the body only emits a log line when the handle is non-zero;
it touches no state and returns normally for every handle. -/
def nativeRelease (s : ClassifierState) (_handle : Int) : ClassifierState :=
  s

/-- `nativeDetectLanguage` as a state transformer, to speak about detect
calls made after a release: the call leaves the (trivial) state unchanged
and returns its result. -/
def nativeDetectLanguageSt (s : ClassifierState) (handle : Int)
    (text : Option (List Nat)) : ClassifierState × String :=
  (s, nativeDetectLanguage handle text)

/-- `Java_com_example_app_language_LanguageIdentifier_nativeInitialize`
(lines 27-41): null model path yields `""`, any non-null path yields the
version string `"1.2.0"` (the path is only logged). -/
def nativeInitialize (modelPath : Option (List Nat)) : String :=
  match modelPath with
  | none => ""
  | some _ => "1.2.0"

/-- `Java_com_example_app_language_LanguageIdentifier_nativeGetVersion`
(lines 188-195). -/
def nativeGetVersion : String :=
  "1.2.0"

/-- Two texts differing only in the case of ASCII letters: byte-wise, the
two bytes lower-case to the same byte (for bytes this holds exactly when
they are equal or are the upper/lower case of one ASCII letter). -/
def caseVariant (t₁ t₂ : List Nat) : Prop :=
  List.Forall₂ (fun a b => toLowerByte a = toLowerByte b) t₁ t₂

instance (t₁ t₂ : List Nat) : Decidable (caseVariant t₁ t₂) :=
  inferInstanceAs
    (Decidable (List.Forall₂ (fun a b => toLowerByte a = toLowerByte b) t₁ t₂))

/-! ## Helper lemmas -/

theorem startsWithB_iff (p l : List Nat) : startsWithB p l = true ↔ ∃ t, l = p ++ t := by
  induction p generalizing l with
  | nil => simp [startsWithB]
  | cons a p ih =>
    cases l with
    | nil => simp [startsWithB]
    | cons b l =>
      simp only [startsWithB, Bool.and_eq_true, beq_iff_eq, ih, List.cons_append,
        List.cons.injEq]
      constructor
      · rintro ⟨rfl, t, rfl⟩
        exact ⟨t, rfl, rfl⟩
      · rintro ⟨t, rfl, rfl⟩
        exact ⟨rfl, t, rfl⟩

theorem containsB_iff (p l : List Nat) : containsB p l = true ↔ ∃ s t, l = s ++ p ++ t := by
  induction l with
  | nil =>
    simp only [containsB, List.isEmpty_iff]
    constructor
    · rintro rfl
      exact ⟨[], [], rfl⟩
    · rintro ⟨s, t, h⟩
      rcases List.append_eq_nil.mp h.symm with ⟨h1, -⟩
      exact (List.append_eq_nil.mp h1).2
  | cons b l ih =>
    simp only [containsB, Bool.or_eq_true, startsWithB_iff, ih]
    constructor
    · rintro (⟨t, ht⟩ | ⟨s, t, ht⟩)
      · exact ⟨[], t, by simpa using ht⟩
      · exact ⟨b :: s, t, by simp [ht]⟩
    · rintro ⟨s, t, ht⟩
      cases s with
      | nil => exact Or.inl ⟨t, by simpa using ht⟩
      | cons c s =>
        rcases List.cons.injEq .. ▸ ht with ⟨-, hl⟩
        exact Or.inr ⟨s, t, by simpa using hl⟩

theorem kwHit_space_mem (nt kw : List Nat) (h : kwHit nt kw = true) : 32 ∈ nt := by
  obtain ⟨s, t, rfl⟩ := (containsB_iff (kwPattern kw) nt).mp h
  simp [kwPattern]

theorem tableHit_space_mem (nt : List Nat) (kws : List (List Nat))
    (h : tableHit nt kws = true) : 32 ∈ nt := by
  obtain ⟨kw, -, hkw⟩ := List.any_eq_true.mp h
  exact kwHit_space_mem nt kw hkw

theorem toLowerByte_eq_32 (b : Nat) (h : toLowerByte b = 32) : b = 32 := by
  unfold toLowerByte at h
  split at h <;> omega

theorem mem_32_of_normalize (t : List Nat) (h : 32 ∈ normalize t) : 32 ∈ t := by
  obtain ⟨b, hb, hlb⟩ := List.mem_map.mp h
  exact toLowerByte_eq_32 b hlb ▸ hb

theorem keywordResult_of_no_hit (nt : List Nat)
    (h : ∀ i : Fin 5, tableHit nt (langTable i) = false) : keywordResult nt = "en" := by
  have h0 : tableHit nt esKws = false := h 0
  have h1 : tableHit nt frKws = false := h 1
  have h2 : tableHit nt deKws = false := h 2
  have h3 : tableHit nt itKws = false := h 3
  have h4 : tableHit nt ptKws = false := h 4
  simp [keywordResult, h0, h1, h2, h3, h4]

theorem detectBytes_of_no_hit (t : List Nat)
    (hnk : ∀ i : Fin 5, tableHit (normalize t) (langTable i) = false) :
    detectBytes t =
      if 10 * accentCount (normalize t) > (normalize t).length then "mul" else "en" := by
  unfold detectBytes detectNormalized
  rw [keywordResult_of_no_hit (normalize t) hnk]
  simp

theorem detectNormalized_of_keyword (nt : List Nat) (h : keywordResult nt ≠ "en") :
    detectNormalized nt = keywordResult nt := by
  unfold detectNormalized
  simp [h]

theorem normalize_eq_of_caseVariant (t₁ t₂ : List Nat) (h : caseVariant t₁ t₂) :
    normalize t₁ = normalize t₂ := by
  induction h with
  | nil => rfl
  | cons hab _ ih =>
    simp only [normalize, List.map_cons] at ih ⊢
    exact List.cons_eq_cons.mpr ⟨hab, ih⟩

/-! ## Claim theorems -/

/-- C1: for every non-null text and every handle, `detect` evaluates the five
keyword tables in the fixed order Spanish, French, German, Italian,
Portuguese, and returns the code of the first language in that order having
at least one keyword occurring in the lowercased text as a space-delimited
substring, later languages being irrelevant once a match occurs. -/
theorem detect_first_match_priority (h : Int) (t : List Nat) (i : Fin 5)
    (hi : tableHit (normalize t) (langTable i) = true)
    (hj : ∀ j : Fin 5, j < i → tableHit (normalize t) (langTable j) = false) :
    nativeDetectLanguage h (some t) = langCode i := by
  have key : keywordResult (normalize t) = langCode i := by
    fin_cases i
    · have h0 : tableHit (normalize t) esKws = true := hi
      simp only [keywordResult, h0, if_true]
      rfl
    · have h0 : tableHit (normalize t) esKws = false := hj 0 (by decide)
      have h1 : tableHit (normalize t) frKws = true := hi
      simp only [keywordResult, h0, h1, if_true, if_false, Bool.false_eq_true]
      rfl
    · have h0 : tableHit (normalize t) esKws = false := hj 0 (by decide)
      have h1 : tableHit (normalize t) frKws = false := hj 1 (by decide)
      have h2 : tableHit (normalize t) deKws = true := hi
      simp only [keywordResult, h0, h1, h2, if_true, if_false, Bool.false_eq_true]
      rfl
    · have h0 : tableHit (normalize t) esKws = false := hj 0 (by decide)
      have h1 : tableHit (normalize t) frKws = false := hj 1 (by decide)
      have h2 : tableHit (normalize t) deKws = false := hj 2 (by decide)
      have h3 : tableHit (normalize t) itKws = true := hi
      simp only [keywordResult, h0, h1, h2, h3, if_true, if_false, Bool.false_eq_true]
      rfl
    · have h0 : tableHit (normalize t) esKws = false := hj 0 (by decide)
      have h1 : tableHit (normalize t) frKws = false := hj 1 (by decide)
      have h2 : tableHit (normalize t) deKws = false := hj 2 (by decide)
      have h3 : tableHit (normalize t) itKws = false := hj 3 (by decide)
      have h4 : tableHit (normalize t) ptKws = true := hi
      simp only [keywordResult, h0, h1, h2, h3, h4, if_true, if_false, Bool.false_eq_true]
      rfl
  have hne : keywordResult (normalize t) ≠ "en" := by
    rw [key]; fin_cases i <;> decide
  show detectBytes t = langCode i
  rw [detectBytes, detectNormalized_of_keyword (normalize t) hne, key]

/-- C1, instantiated: the text `" el der "` contains both the Spanish
keyword `" el "` and the German keyword `" der "`, and `detect` classifies
it `es`. -/
theorem detect_first_match_priority_witness :
    tableHit (normalize (strBytes " el der ")) (langTable 0) = true ∧
      tableHit (normalize (strBytes " el der ")) (langTable 2) = true ∧
      nativeDetectLanguage 0 (some (strBytes " el der ")) = langCode 0 :=
  ⟨by decide, by decide,
    detect_first_match_priority 0 (strBytes " el der ") 0 (by decide) (by decide)⟩

/-- C2: `detect` returns `und` exactly on null/unprocessable input: null
text yields `und`, and for every non-null text the result is one of
es, fr, de, it, pt, en, mul — never `und`. -/
theorem detect_und_iff_null (h : Int) :
    nativeDetectLanguage h none = "und" ∧
      ∀ t : List Nat,
        nativeDetectLanguage h (some t) ≠ "und" ∧
          nativeDetectLanguage h (some t) ∈
            (["es", "fr", "de", "it", "pt", "en", "mul"] : List String) := by
  refine ⟨rfl, fun t => ?_⟩
  have hkw : keywordResult (normalize t) ∈
      (["es", "fr", "de", "it", "pt", "en"] : List String) := by
    unfold keywordResult
    split_ifs <;> simp
  have hmem : nativeDetectLanguage h (some t) ∈
      (["es", "fr", "de", "it", "pt", "en", "mul"] : List String) := by
    show (if 10 * accentCount (normalize t) > (normalize t).length ∧
        keywordResult (normalize t) = "en" then "mul" else keywordResult (normalize t)) ∈
      (["es", "fr", "de", "it", "pt", "en", "mul"] : List String)
    split_ifs
    · simp
    · simp only [List.mem_cons, List.not_mem_nil, or_false] at hkw ⊢
      tauto
  refine ⟨fun hund => ?_, hmem⟩
  rw [hund] at hmem
  simp at hmem

/-- C3: on a non-null text in which no language's keyword matches, `detect`
returns `mul` when the non-ASCII count exceeds 10% of the normalized text's
length, and `en` otherwise. -/
theorem detect_no_keyword_fallback (h : Int) (t : List Nat)
    (hnk : ∀ i : Fin 5, tableHit (normalize t) (langTable i) = false) :
    nativeDetectLanguage h (some t) =
      if 10 * accentCount (normalize t) > (normalize t).length then "mul" else "en" :=
  detectBytes_of_no_hit t hnk

/-- C3, instantiated at the empty string: no keyword matches and the
non-ASCII ratio is zero, so `detect` returns `en`. -/
theorem detect_no_keyword_fallback_witness :
    (∀ i : Fin 5, tableHit (normalize ([] : List Nat)) (langTable i) = false) ∧
      nativeDetectLanguage 0 (some ([] : List Nat)) = "en" := by
  refine ⟨by decide, ?_⟩
  rw [detect_no_keyword_fallback 0 [] (by decide)]
  decide

/-- C4: when some keyword matched (the working result is one of es, fr, de,
it, pt), the non-ASCII fallback never changes the result, whatever the
non-ASCII ratio is. -/
theorem detect_keyword_never_overridden (h : Int) (t : List Nat)
    (hk : keywordResult (normalize t) ∈ (["es", "fr", "de", "it", "pt"] : List String)) :
    nativeDetectLanguage h (some t) = keywordResult (normalize t) := by
  have hne : keywordResult (normalize t) ≠ "en" := by
    simp only [List.mem_cons, List.not_mem_nil, or_false] at hk
    rcases hk with h' | h' | h' | h' | h' <;> simp [h']
  exact detectNormalized_of_keyword (normalize t) hne

/-- C4, instantiated: `" el "` followed by ten non-ASCII bytes has a
non-ASCII ratio far above 10%, yet `detect` still returns the
keyword-determined `es`. -/
theorem detect_keyword_never_overridden_witness :
    keywordResult (normalize (strBytes " el " ++ List.replicate 10 200)) ∈
        (["es", "fr", "de", "it", "pt"] : List String) ∧
      10 * accentCount (normalize (strBytes " el " ++ List.replicate 10 200)) >
        (normalize (strBytes " el " ++ List.replicate 10 200)).length ∧
      nativeDetectLanguage 0 (some (strBytes " el " ++ List.replicate 10 200)) = "es" := by
  refine ⟨by decide, by decide, ?_⟩
  rw [detect_keyword_never_overridden 0 (strBytes " el " ++ List.replicate 10 200)
    (by decide)]
  decide

/-- C5: classification is invariant under ASCII letter case: two texts whose
bytes lower-case pointwise to the same bytes (i.e. differ only in the case of
ASCII letters) get the same code. -/
theorem detect_ascii_case_insensitive (h : Int) (t₁ t₂ : List Nat)
    (hv : caseVariant t₁ t₂) :
    nativeDetectLanguage h (some t₁) = nativeDetectLanguage h (some t₂) := by
  show detectBytes t₁ = detectBytes t₂
  unfold detectBytes
  rw [normalize_eq_of_caseVariant t₁ t₂ hv]

/-- C5, instantiated: `"El gato"` and `"EL GATO"` differ only in ASCII
letter case and classify identically. -/
theorem detect_ascii_case_insensitive_witness :
    caseVariant (strBytes "El gato") (strBytes "EL GATO") ∧
      nativeDetectLanguage 0 (some (strBytes "El gato")) =
        nativeDetectLanguage 0 (some (strBytes "EL GATO")) :=
  ⟨by decide,
    detect_ascii_case_insensitive 0 (strBytes "El gato") (strBytes "EL GATO") (by decide)⟩

/-- C6: a keyword matches exactly when it occurs with a single space on each
side in the (lowercased) text; in particular `"el"` embedded inside
`"model"` does not trigger a match on `"el"`. -/
theorem kwHit_iff_space_delimited :
    (∀ nt kw : List Nat,
        kwHit nt kw = true ↔ ∃ pre post, nt = pre ++ (32 :: kw ++ [32]) ++ post) ∧
      kwHit (strBytes "model") (strBytes "el") = false :=
  ⟨fun nt kw => containsB_iff (kwPattern kw) nt, by decide⟩

/-- C7: `release` is a no-op: it is total (always succeeds), idempotent, and
a release with any handle never changes the state seen by, or the result of,
a subsequent `detect` call with the same or any other handle. -/
theorem release_noop :
    ∀ (s : ClassifierState) (h h' : Int) (t : Option (List Nat)),
      nativeRelease (nativeRelease s h) h = nativeRelease s h ∧
        nativeDetectLanguageSt (nativeRelease s h) h' t = nativeDetectLanguageSt s h' t :=
  fun _ _ _ _ => ⟨rfl, rfl⟩

/-- C8: `getVersion` always returns exactly `"1.2.0"`; `initialize` returns
`""` on a null hint and `"1.2.0"` on every non-null hint, whatever its
content. -/
theorem version_and_initialize_fixed :
    nativeGetVersion = "1.2.0" ∧ nativeInitialize none = "" ∧
      ∀ hint : List Nat, nativeInitialize (some hint) = "1.2.0" :=
  ⟨rfl, rfl, fun _ => rfl⟩

/-- C9: the result of `detect` is independent of the handle argument, which
the detection body never reads. -/
theorem detect_handle_independent :
    ∀ (t : Option (List Nat)) (h₁ h₂ : Int),
      nativeDetectLanguage h₁ t = nativeDetectLanguage h₂ t :=
  fun _ _ _ => rfl

/-- C10: a non-null text with no space byte can match no keyword (every
pattern carries a space on each side), so `detect` returns `en` or `mul` as
the non-ASCII ratio alone decides, never a keyword language. -/
theorem detect_no_space_en_or_mul (h : Int) (t : List Nat) (hs : 32 ∉ t) :
    nativeDetectLanguage h (some t) =
      if 10 * accentCount (normalize t) > (normalize t).length then "mul" else "en" := by
  have hnk : ∀ i : Fin 5, tableHit (normalize t) (langTable i) = false := by
    intro i
    cases htb : tableHit (normalize t) (langTable i) with
    | false => rfl
    | true =>
      exact absurd (mem_32_of_normalize t (tableHit_space_mem _ _ htb)) hs
  exact detectBytes_of_no_hit t hnk

/-- C10, instantiated at the space-free text `"hello"`: no keyword can
match and the non-ASCII ratio is zero, so `detect` returns `en`. -/
theorem detect_no_space_en_or_mul_witness :
    (32 ∉ strBytes "hello") ∧
      nativeDetectLanguage 0 (some (strBytes "hello")) = "en" := by
  refine ⟨by decide, ?_⟩
  rw [detect_no_space_en_or_mul 0 (strBytes "hello") (by decide)]
  decide

end LangId
